import Mathlib

/-!
Shallow embedding of `app/store.py` (class `SQLiteStore`) from the
ChatKit_Examples repository.

The SQLite database is modelled as three lists of rows (tables `threads`,
`items`, `attachments`), each row keeping the columns of the corresponding
table.  The serialized `data` column is modelled as the deserialized record
itself (`Thread`, `Item`, `Attachment`): JSON (de)serialization is a
bijection the claims never inspect.  Timestamps (`created_at`, stored as
ISO-format text whose lexicographic order agrees with chronological order)
are modelled as `Nat`.

`INSERT` fails with `integrityError` when the `id` primary key is already
present (SQLite raises `sqlite3.IntegrityError`, which the store does not
catch).  `INSERT OR REPLACE` removes every row with the same primary key and
appends the new row at the end of the table.  `SELECT ... fetchone()` is
`List.find?`.  `DELETE ... WHERE p` is `List.filter (¬ p)`.  Each `async`
method becomes a pure function on the database state; methods that can raise
return `Except Err _`.
-/

namespace ChatkitStore

/-- A `ThreadMetadata` record as the application sees it: `id`,
`created_at`, and the rest of its fields collapsed into an opaque
payload. -/
structure Thread where
  id : String
  created_at : Nat
  payload : String
deriving Repr, DecidableEq

/-- A `ThreadItem` record: `id`, `created_at`, opaque payload. -/
structure Item where
  id : String
  created_at : Nat
  payload : String
deriving Repr, DecidableEq

/-- An `Attachment` record: `id` plus opaque payload. -/
structure Attachment where
  id : String
  payload : String
deriving Repr, DecidableEq

/-- A row of the `threads` table: columns `id` (primary key), `user_id`,
`created_at`, `data`. -/
structure ThreadRow where
  row_id : String
  user_id : String
  created_at : Nat
  data : Thread
deriving Repr, DecidableEq

/-- A row of the `items` table: columns `id` (primary key), `thread_id`,
`user_id`, `created_at`, `data`. -/
structure ItemRow where
  row_id : String
  thread_id : String
  user_id : String
  created_at : Nat
  data : Item
deriving Repr, DecidableEq

/-- A row of the `attachments` table: columns `id` (primary key),
`user_id`, `data`. -/
structure AttachmentRow where
  row_id : String
  user_id : String
  data : Attachment
deriving Repr, DecidableEq

/-- The database state: the three tables created by `_init_db`, each as a
list of rows in physical (insertion) order. -/
structure DB where
  threads : List ThreadRow
  items : List ItemRow
  attachments : List AttachmentRow
deriving Repr, DecidableEq

/-- Errors a store operation can raise: `NotFoundError` (with its message)
and an uncaught `sqlite3.IntegrityError` from a violated primary-key
constraint. -/
inductive Err where
  | notFound (msg : String)
  | integrityError
deriving Repr, DecidableEq

/-- The `chatkit.types.Page` record returned by the listing operations. -/
structure Page (α : Type) where
  data : List α
  has_more : Bool
  after : Option String
deriving Repr, DecidableEq

/-! ### Sorting (`ORDER BY created_at`)

`ORDER BY` is modelled as a stable insertion sort by an arbitrary boolean
comparator; the store uses it with `created_at` ascending (items) and
descending (threads). -/

/-- Insert `x` into `l` before the first element `y` with `le x y`. -/
def insertSorted (le : α → α → Bool) (x : α) : List α → List α
  | [] => [x]
  | y :: ys => if le x y then x :: y :: ys else y :: insertSorted le x ys

/-- Stable insertion sort by the comparator `le`. -/
def sortBy (le : α → α → Bool) : List α → List α
  | [] => []
  | x :: xs => insertSorted le x (sortBy le xs)

/-- Ascending comparator on a `Nat` key (items: `ORDER BY created_at ASC`). -/
def leKey (key : α → Nat) (a b : α) : Bool := decide (key a ≤ key b)

/-- Descending comparator on a `Nat` key (threads: `ORDER BY created_at
DESC`). -/
def geKey (key : α → Nat) (a b : α) : Bool := decide (key b ≤ key a)

/-! ### Pagination (the manual cursor scan shared by `load_threads` and
`load_thread_items`) -/

/-- Index of the first element satisfying `p`, mirroring the Python
`for i, x in enumerate(l): if p(x): ...; break` loop. -/
def findIdxOpt (p : α → Bool) : List α → Option Nat
  | [] => none
  | x :: xs => if p x then some 0 else (findIdxOpt p xs).map (· + 1)

/-- The `start_idx` computed by the pagination code: `0` without a cursor,
one past the first element whose key equals the cursor, `0` again when the
cursor matches nothing. -/
def startIdx (key : α → String) (after : Option String) (l : List α) : Nat :=
  match after with
  | none => 0
  | some a =>
    match findIdxOpt (fun x => key x == a) l with
    | some i => i + 1
    | none => 0

/-- Build the returned `Page`: `sliced = l[start_idx : start_idx+limit]`,
`has_more = start_idx + limit < len(l)`, and
`after = sliced[-1].id if sliced and has_more else None`. -/
def mkPage (key : α → String) (l : List α) (after : Option String)
    (limit : Nat) : Page α :=
  let s := startIdx key after l
  let sliced := (l.drop s).take limit
  let hasMore := decide (s + limit < l.length)
  { data := sliced
    has_more := hasMore
    after :=
      match sliced.getLast?, hasMore with
      | some x, true => some (key x)
      | _, _ => none }

/-! ### Thread operations -/

/-- `load_thread`: `SELECT data FROM threads WHERE id = ? AND user_id = ?`,
`NotFoundError(f"Thread {thread_id} not found")` when no row matches. -/
def loadThread (thread_id : String) (user_id : String) (db : DB) :
    Except Err Thread :=
  match db.threads.find?
      (fun r => r.row_id == thread_id && r.user_id == user_id) with
  | none => .error (.notFound ("Thread " ++ thread_id ++ " not found"))
  | some r => .ok r.data

/-- `save_thread`: `INSERT OR REPLACE INTO threads` with the thread's `id`
and `created_at` and the caller's `user_id`. -/
def saveThread (thread : Thread) (user_id : String) (db : DB) : DB :=
  { db with
    threads := db.threads.filter (fun r => r.row_id != thread.id) ++
      [⟨thread.id, user_id, thread.created_at, thread⟩] }

/-- `load_threads`: `SELECT data FROM threads WHERE user_id = ? ORDER BY
created_at DESC` (the `order` argument is accepted but never read), then
the manual pagination slice over the parsed threads, keyed by thread id. -/
def loadThreads (limit : Nat) (after : Option String) (order : String)
    (user_id : String) (db : DB) : Page Thread :=
  let rows := sortBy (geKey ThreadRow.created_at)
    (db.threads.filter (fun r => r.user_id == user_id))
  let threads := rows.map ThreadRow.data
  mkPage Thread.id threads after limit

/-- `delete_thread`: `DELETE FROM threads WHERE id = ? AND user_id = ?`
then `DELETE FROM items WHERE thread_id = ? AND user_id = ?`. -/
def deleteThread (thread_id : String) (user_id : String) (db : DB) : DB :=
  { db with
    threads := db.threads.filter
      (fun r => !(r.row_id == thread_id && r.user_id == user_id))
    items := db.items.filter
      (fun r => !(r.thread_id == thread_id && r.user_id == user_id)) }

/-! ### Item operations -/

/-- The full ordered item set of a thread as `load_thread_items`
materializes it: all `items` rows of the thread ordered by `created_at`
ascending, parsed, then reversed when `order == "desc"`. -/
def orderedItems (thread_id : String) (order : String) (db : DB) :
    List Item :=
  let rows := sortBy (leKey ItemRow.created_at)
    (db.items.filter (fun r => r.thread_id == thread_id))
  let items := rows.map ItemRow.data
  if order == "desc" then items.reverse else items

/-- `load_thread_items`: first `SELECT 1 FROM threads WHERE id = ? AND
user_id = ?` (raising `NotFoundError("Thread not found")` when absent),
then the manual pagination slice over the ordered item set, keyed by item
id. -/
def loadThreadItems (thread_id : String) (after : Option String)
    (limit : Nat) (order : String) (user_id : String) (db : DB) :
    Except Err (Page Item) :=
  match db.threads.find?
      (fun r => r.row_id == thread_id && r.user_id == user_id) with
  | none => .error (.notFound "Thread not found")
  | some _ => .ok (mkPage Item.id (orderedItems thread_id order db) after limit)

/-- `add_thread_item`: plain `INSERT INTO items`; the `id` primary key
makes the insert raise `sqlite3.IntegrityError` when any row with the same
item id already exists; no thread-existence check is performed. -/
def addThreadItem (thread_id : String) (item : Item) (user_id : String)
    (db : DB) : Except Err DB :=
  if db.items.any (fun r => r.row_id == item.id) then
    .error .integrityError
  else
    .ok { db with
      items := db.items ++
        [⟨item.id, thread_id, user_id, item.created_at, item⟩] }

/-- `save_item`: `INSERT OR REPLACE INTO items` with the given `thread_id`,
the caller's `user_id`, and the item's `created_at`; no thread-existence
check is performed. -/
def saveItem (thread_id : String) (item : Item) (user_id : String)
    (db : DB) : DB :=
  { db with
    items := db.items.filter (fun r => r.row_id != item.id) ++
      [⟨item.id, thread_id, user_id, item.created_at, item⟩] }

/-- `load_item`: `SELECT data FROM items WHERE id = ? AND thread_id = ?` —
the context's `user_id` is not part of the query. -/
def loadItem (thread_id : String) (item_id : String) (user_id : String)
    (db : DB) : Except Err Item :=
  match db.items.find?
      (fun r => r.row_id == item_id && r.thread_id == thread_id) with
  | none => .error (.notFound ("Item " ++ item_id ++ " not found"))
  | some r => .ok r.data

/-- `delete_thread_item`: `DELETE FROM items WHERE id = ? AND thread_id = ?`
— the context's `user_id` is not part of the query. -/
def deleteThreadItem (thread_id : String) (item_id : String)
    (user_id : String) (db : DB) : DB :=
  { db with
    items := db.items.filter
      (fun r => !(r.row_id == item_id && r.thread_id == thread_id)) }

/-! ### Attachment operations -/

/-- `save_attachment`: `INSERT OR REPLACE INTO attachments` with the
caller's `user_id`. -/
def saveAttachment (attachment : Attachment) (user_id : String) (db : DB) :
    DB :=
  { db with
    attachments :=
      db.attachments.filter (fun r => r.row_id != attachment.id) ++
        [⟨attachment.id, user_id, attachment⟩] }

/-- `load_attachment`: `SELECT data FROM attachments WHERE id = ?` — the
context's `user_id` is not part of the query. -/
def loadAttachment (attachment_id : String) (user_id : String) (db : DB) :
    Except Err Attachment :=
  match db.attachments.find? (fun r => r.row_id == attachment_id) with
  | none =>
    .error (.notFound ("Attachment " ++ attachment_id ++ " not found"))
  | some r => .ok r.data

/-- `delete_attachment`: `DELETE FROM attachments WHERE id = ?`. -/
def deleteAttachment (attachment_id : String) (user_id : String) (db : DB) :
    DB :=
  { db with
    attachments :=
      db.attachments.filter (fun r => !(r.row_id == attachment_id)) }

/-! ### Derived definitions used by the claims -/

/-- Exhaust pagination: starting from cursor `cur`, request a page and, as
long as `has_more` is set, continue from the returned cursor, concatenating
the page contents (`fuel` bounds the number of requests). -/
def collectPages (key : α → String) (limit : Nat) (l : List α) :
    Nat → Option String → List α
  | 0, _ => []
  | fuel + 1, cur =>
    let p := mkPage key l cur limit
    if p.has_more then p.data ++ collectPages key limit l fuel p.after
    else p.data

/-- Exhaust `load_thread_items` pagination through the store interface. -/
def collectItemPages (thread_id : String) (limit : Nat) (order : String)
    (user_id : String) (db : DB) : Nat → Option String → Except Err (List Item)
  | 0, _ => .ok []
  | fuel + 1, cur =>
    match loadThreadItems thread_id cur limit order user_id db with
    | .error e => .error e
    | .ok p =>
      if p.has_more then
        match collectItemPages thread_id limit order user_id db fuel p.after with
        | .error e => .error e
        | .ok rest => .ok (p.data ++ rest)
      else .ok p.data

/-- The thread's item rows in the ascending `created_at` order that
pagination is based on. -/
def orderedItemRows (thread_id : String) (db : DB) : List ItemRow :=
  sortBy (leKey ItemRow.created_at)
    (db.items.filter (fun r => r.thread_id == thread_id))

/-- Primary-key invariant of the `items` table: row ids are distinct. -/
abbrev itemIdsNodup (db : DB) : Prop :=
  (db.items.map ItemRow.row_id).Nodup

/-- Primary-key invariant of the `threads` table: row ids are distinct. -/
abbrev threadIdsNodup (db : DB) : Prop :=
  (db.threads.map ThreadRow.row_id).Nodup

/-- Write invariant maintained by `add_thread_item`/`save_item`: the `id`
column of an item row equals the id of the serialized item in `data`. -/
abbrev itemRowsLinked (db : DB) : Prop :=
  ∀ r ∈ db.items, r.data.id = r.row_id

/-! ### General lemmas: `find?` -/

theorem find?_append_of_none {α : Type _} {p : α → Bool} {l₁ l₂ : List α}
    (h : ∀ x ∈ l₁, ¬ p x = true) :
    List.find? p (l₁ ++ l₂) = List.find? p l₂ := by
  induction l₁ with
  | nil => rfl
  | cons a t ih =>
    rw [List.cons_append,
      List.find?_cons_of_neg _ (h a (List.mem_cons_self a t))]
    exact ih fun x hx => h x (List.mem_cons_of_mem a hx)

theorem find?_eq_some_of_unique {α : Type _} {p : α → Bool} {l : List α}
    {r : α} (hmem : r ∈ l) (hr : p r = true)
    (huniq : ∀ x ∈ l, p x = true → x = r) :
    List.find? p l = some r := by
  induction l with
  | nil => cases hmem
  | cons a t ih =>
    by_cases ha : p a = true
    · rw [List.find?_cons_of_pos _ ha, huniq a (List.mem_cons_self a t) ha]
    · rw [List.find?_cons_of_neg _ ha]
      rcases List.mem_cons.mp hmem with rfl | hmem'
      · exact absurd hr ha
      · exact ih hmem' fun x hx hpx => huniq x (List.mem_cons_of_mem a hx) hpx

/-! ### General lemmas: the insertion sort -/

theorem insertSorted_perm {α : Type _} (le : α → α → Bool) (x : α)
    (l : List α) : (insertSorted le x l).Perm (x :: l) := by
  induction l with
  | nil => exact List.Perm.refl _
  | cons y ys ih =>
    by_cases h : le x y = true
    · rw [insertSorted, if_pos h]
    · rw [insertSorted, if_neg h]
      exact (ih.cons y).trans (List.Perm.swap x y ys)

theorem sortBy_perm {α : Type _} (le : α → α → Bool) (l : List α) :
    (sortBy le l).Perm l := by
  induction l with
  | nil => exact List.Perm.refl _
  | cons x xs ih =>
    exact (insertSorted_perm le x (sortBy le xs)).trans (ih.cons x)

theorem pairwise_insertSorted {α : Type _} {le : α → α → Bool}
    (htot : ∀ a b, le a b = true ∨ le b a = true)
    (htrans : ∀ a b c, le a b = true → le b c = true → le a c = true)
    (x : α) {l : List α} (h : List.Pairwise (fun a b => le a b = true) l) :
    List.Pairwise (fun a b => le a b = true) (insertSorted le x l) := by
  induction l with
  | nil => simp [insertSorted]
  | cons y ys ih =>
    cases h with
    | cons hy hys =>
      by_cases hxy : le x y = true
      · rw [insertSorted, if_pos hxy]
        refine List.Pairwise.cons ?_ (List.Pairwise.cons hy hys)
        intro z hz
        rcases List.mem_cons.mp hz with rfl | hz'
        · exact hxy
        · exact htrans x y z hxy (hy z hz')
      · rw [insertSorted, if_neg hxy]
        refine List.Pairwise.cons ?_ (ih hys)
        intro z hz
        have hz' : z ∈ x :: ys := (insertSorted_perm le x ys).subset hz
        rcases List.mem_cons.mp hz' with rfl | hz''
        · rcases htot z y with h' | h'
          · exact absurd h' hxy
          · exact h'
        · exact hy z hz''

theorem pairwise_sortBy {α : Type _} {le : α → α → Bool}
    (htot : ∀ a b, le a b = true ∨ le b a = true)
    (htrans : ∀ a b c, le a b = true → le b c = true → le a c = true)
    (l : List α) :
    List.Pairwise (fun a b => le a b = true) (sortBy le l) := by
  induction l with
  | nil => simp [sortBy]
  | cons x xs ih => exact pairwise_insertSorted htot htrans x ih

theorem leKey_total {α : Type _} (key : α → Nat) (a b : α) :
    leKey key a b = true ∨ leKey key b a = true := by
  simp only [leKey, decide_eq_true_eq]
  omega

theorem leKey_trans {α : Type _} (key : α → Nat) (a b c : α)
    (h1 : leKey key a b = true) (h2 : leKey key b c = true) :
    leKey key a c = true := by
  simp only [leKey, decide_eq_true_eq] at *
  omega

theorem geKey_total {α : Type _} (key : α → Nat) (a b : α) :
    geKey key a b = true ∨ geKey key b a = true := by
  simp only [geKey, decide_eq_true_eq]
  omega

theorem geKey_trans {α : Type _} (key : α → Nat) (a b c : α)
    (h1 : geKey key a b = true) (h2 : geKey key b c = true) :
    geKey key a c = true := by
  simp only [geKey, decide_eq_true_eq] at *
  omega

/-! ### General lemmas: pagination -/

theorem findIdxOpt_key_getElem {α : Type _} {key : α → String} :
    ∀ {l : List α}, (l.map key).Nodup → ∀ {i : Nat} (hi : i < l.length),
      findIdxOpt (fun x => key x == key l[i]) l = some i := by
  intro l
  induction l with
  | nil => intro _ i hi; cases hi
  | cons a t ih =>
    intro hnd i hi
    rw [List.map_cons] at hnd
    rcases List.nodup_cons.mp hnd with ⟨hka, hndt⟩
    cases i with
    | zero => simp [findIdxOpt]
    | succ j =>
      have hj : j < t.length := Nat.lt_of_succ_lt_succ (by simpa using hi)
      have hne : ¬ (key a == key (a :: t)[j + 1]) = true := by
        rw [List.getElem_cons_succ]
        intro hcontra
        have hkeq : key a = key t[j] := by simpa using hcontra
        exact hka (hkeq ▸ List.mem_map_of_mem key (List.getElem_mem hj))
      rw [findIdxOpt, if_neg hne]
      have hrec := ih hndt hj
      rw [List.getElem_cons_succ, hrec]
      rfl

theorem startIdx_some_getElem {α : Type _} {key : α → String} {l : List α}
    (hnd : (l.map key).Nodup) {i : Nat} (hi : i < l.length) :
    startIdx key (some (key l[i])) l = i + 1 := by
  rw [startIdx, findIdxOpt_key_getElem hnd hi]

theorem getLast?_take_of_le {α : Type _} :
    ∀ {l : List α} {m : Nat}, 0 < m → m ≤ l.length →
      (l.take m).getLast? = l[m - 1]? := by
  intro l
  induction l with
  | nil => intro m h0 hm; simp at hm; omega
  | cons a t ih =>
    intro m h0 hm
    match m, h0 with
    | 1, _ => simp
    | m + 2, _ =>
      have hm' : m + 1 ≤ t.length := by simpa using hm
      have hlen : (t.take (m + 1)).length = m + 1 := by
        rw [List.length_take]
        omega
      rw [List.take_succ_cons]
      cases htake : t.take (m + 1) with
      | nil => rw [htake] at hlen; cases hlen
      | cons b u =>
        rw [List.getLast?_cons_cons, ← htake,
          ih (Nat.succ_pos m) hm']
        have : m + 2 - 1 = (m + 1 - 1) + 1 := by omega
        rw [this, List.getElem?_cons_succ]

theorem mkPage_data {α : Type _} (key : α → String) (l : List α)
    (after : Option String) (limit : Nat) :
    (mkPage key l after limit).data =
      (l.drop (startIdx key after l)).take limit := rfl

theorem mkPage_has_more {α : Type _} (key : α → String) (l : List α)
    (after : Option String) (limit : Nat) :
    (mkPage key l after limit).has_more =
      decide (startIdx key after l + limit < l.length) := rfl

theorem mkPage_after_startIdx {α : Type _} {key : α → String}
    {l : List α} {after : Option String} {limit : Nat}
    (hnd : (l.map key).Nodup) (hlim : 0 < limit)
    (hmore : startIdx key after l + limit < l.length) :
    ∃ a, (mkPage key l after limit).after = some a ∧
      startIdx key (some a) l = startIdx key after l + limit := by
  have hidx : startIdx key after l + limit - 1 < l.length := by omega
  refine ⟨key (l.get ⟨startIdx key after l + limit - 1, hidx⟩), ?_, ?_⟩
  · have hlastidx : startIdx key after l + (limit - 1) =
        startIdx key after l + limit - 1 := by omega
    have hlast :
        ((l.drop (startIdx key after l)).take limit).getLast? =
          some (l.get ⟨startIdx key after l + limit - 1, hidx⟩) := by
      rw [getLast?_take_of_le hlim (by rw [List.length_drop]; omega),
        List.getElem?_drop, hlastidx, List.getElem?_eq_getElem hidx]
      rw [List.get_eq_getElem]
    show (match ((l.drop (startIdx key after l)).take limit).getLast?,
        decide (startIdx key after l + limit < l.length) with
      | some x, true => some (key x)
      | _, _ => none) = _
    rw [hlast, decide_eq_true_eq.mpr hmore]
  · rw [List.get_eq_getElem, startIdx_some_getElem hnd hidx]
    omega

theorem collectPages_eq_drop {α : Type _} {key : α → String} {limit : Nat}
    {l : List α} (hnd : (l.map key).Nodup) (hlim : 0 < limit) :
    ∀ (fuel : Nat) (cur : Option String),
      l.length - startIdx key cur l ≤ fuel * limit →
      collectPages key limit l fuel cur = l.drop (startIdx key cur l) := by
  intro fuel
  induction fuel with
  | zero =>
    intro cur hfuel
    rw [Nat.zero_mul, Nat.le_zero] at hfuel
    rw [collectPages]
    exact (List.drop_eq_nil_of_le (by omega)).symm
  | succ n ih =>
    intro cur hfuel
    by_cases hmore : startIdx key cur l + limit < l.length
    · obtain ⟨a, ha, hstep⟩ := mkPage_after_startIdx hnd hlim hmore
      rw [collectPages]
      simp only [mkPage_has_more, mkPage_data, ha,
        decide_eq_true_eq.mpr hmore, if_true]
      have hih := ih (some a) (by
        rw [hstep]
        have : (n + 1) * limit = n * limit + limit := by
          rw [Nat.succ_mul]
        omega)
      rw [hih, hstep, ← List.drop_drop, List.take_append_drop]
    · rw [collectPages]
      simp only [mkPage_has_more, mkPage_data]
      rw [if_neg (by simpa using hmore)]
      exact List.take_of_length_le (by rw [List.length_drop]; omega)

/-! ### Lemmas about the ordered item set -/

theorem orderedItemRows_mem {db : DB} {thread_id : String} {r : ItemRow}
    (hr : r ∈ orderedItemRows thread_id db) : r ∈ db.items := by
  have hr' := (sortBy_perm (leKey ItemRow.created_at)
    (db.items.filter (fun r => r.thread_id == thread_id))).subset hr
  exact (List.mem_filter.mp hr').1

theorem orderedItemRows_ids_nodup (db : DB) (thread_id : String)
    (hnd : itemIdsNodup db) :
    ((orderedItemRows thread_id db).map ItemRow.row_id).Nodup := by
  have hfil :
      ((db.items.filter (fun r => r.thread_id == thread_id)).map
        ItemRow.row_id).Nodup :=
    List.Nodup.sublist (List.Sublist.map _ (List.filter_sublist _)) hnd
  exact ((sortBy_perm (leKey ItemRow.created_at)
    (db.items.filter (fun r => r.thread_id == thread_id))).map
      ItemRow.row_id).nodup_iff.mpr hfil

theorem orderedItems_eq (thread_id order : String) (db : DB) :
    orderedItems thread_id order db =
      if order == "desc"
      then ((orderedItemRows thread_id db).map ItemRow.data).reverse
      else (orderedItemRows thread_id db).map ItemRow.data := rfl

theorem orderedItems_ids_nodup (db : DB) (thread_id order : String)
    (hnd : itemIdsNodup db) (hlink : itemRowsLinked db) :
    ((orderedItems thread_id order db).map Item.id).Nodup := by
  have hbase :
      ((orderedItemRows thread_id db).map ItemRow.data).map Item.id =
        (orderedItemRows thread_id db).map ItemRow.row_id := by
    rw [List.map_map]
    exact List.map_congr_left fun r hr => hlink r (orderedItemRows_mem hr)
  have hnodup := orderedItemRows_ids_nodup db thread_id hnd
  rw [orderedItems_eq]
  by_cases hord : (order == "desc") = true
  · rw [if_pos hord, List.map_reverse, List.nodup_reverse, hbase]
    exact hnodup
  · rw [if_neg hord, hbase]
    exact hnodup

theorem collectItemPages_eq (thread_id : String) (limit : Nat)
    (order user_id : String) (db : DB)
    (hthread : ∃ r ∈ db.threads,
      r.row_id = thread_id ∧ r.user_id = user_id) :
    ∀ (fuel : Nat) (cur : Option String),
      collectItemPages thread_id limit order user_id db fuel cur =
        .ok (collectPages Item.id limit (orderedItems thread_id order db)
          fuel cur) := by
  obtain ⟨r, hr, hid, huser⟩ := hthread
  have hp : (fun q : ThreadRow =>
      q.row_id == thread_id && q.user_id == user_id) r = true := by
    simp [hid, huser]
  have hsome : (db.threads.find? (fun q : ThreadRow =>
      q.row_id == thread_id && q.user_id == user_id)).isSome = true :=
    List.find?_isSome.mpr ⟨r, hr, hp⟩
  obtain ⟨r', hfind⟩ := Option.isSome_iff_exists.mp hsome
  intro fuel
  induction fuel with
  | zero => intro cur; rfl
  | succ n ih =>
    intro cur
    rw [collectItemPages, collectPages, loadThreadItems, hfind]
    by_cases hmore :
        (mkPage Item.id (orderedItems thread_id order db) cur limit).has_more
          = true
    · simp only [hmore, if_true, ih]
    · simp only [Bool.not_eq_true] at hmore
      simp only [hmore, Bool.false_eq_true, if_false]

/-! ### Lemmas for the upsert/ordering analysis -/

theorem sorted_perm_eq_of_nodup_keys {α : Type _} (key : α → Nat) :
    ∀ {l₁ l₂ : List α}, l₁.Perm l₂ →
      List.Pairwise (fun a b => leKey key a b = true) l₁ →
      List.Pairwise (fun a b => leKey key a b = true) l₂ →
      (l₁.map key).Nodup → l₁ = l₂ := by
  intro l₁
  induction l₁ with
  | nil =>
    intro l₂ hp _ _ _
    exact (hp.symm.eq_nil).symm
  | cons a t ih =>
    intro l₂ hp h1 h2 hnd
    cases l₂ with
    | nil => exact absurd hp.eq_nil (List.cons_ne_nil a t)
    | cons b u =>
      rw [List.map_cons] at hnd
      rcases List.nodup_cons.mp hnd with ⟨hka, hndt⟩
      have hab : a = b := by
        rcases List.mem_cons.mp (hp.subset (List.mem_cons_self a t)) with
          h | hau
        · exact h
        · rcases List.mem_cons.mp
            (hp.symm.subset (List.mem_cons_self b u)) with h | hbt
          · exact h.symm
          · have h1' : key a ≤ key b := by
              have := List.rel_of_pairwise_cons h1 hbt
              simpa [leKey] using this
            have h2' : key b ≤ key a := by
              have := List.rel_of_pairwise_cons h2 hau
              simpa [leKey] using this
            have hmemk : key a ∈ t.map key := by
              rw [Nat.le_antisymm h1' h2']
              exact List.mem_map_of_mem key hbt
            exact absurd hmemk hka
      subst hab
      rw [ih hp.cons_inv h1.of_cons h2.of_cons hndt]

theorem filter_append_perm_map_subst (iid : String) (newRow : ItemRow) :
    ∀ {L : List ItemRow}, (L.map ItemRow.row_id).Nodup →
      (∃ r ∈ L, r.row_id = iid) →
      (L.filter (fun r => r.row_id != iid) ++ [newRow]).Perm
        (L.map (fun r => if r.row_id == iid then newRow else r)) := by
  intro L
  induction L with
  | nil =>
    intro _ h
    rcases h with ⟨r, hr, _⟩
    cases hr
  | cons x t ih =>
    intro hnd hex
    rw [List.map_cons] at hnd
    rcases List.nodup_cons.mp hnd with ⟨hx, hndt⟩
    by_cases hxi : x.row_id = iid
    · have hnot : ∀ r ∈ t, ¬ r.row_id = iid := by
        intro r hr hri
        have : x.row_id ∈ t.map ItemRow.row_id := by
          rw [hxi, ← hri]
          exact List.mem_map_of_mem _ hr
        exact hx this
      have hfx : (x.row_id != iid) = false := by simp [hxi]
      have hfilt : t.filter (fun r => r.row_id != iid) = t :=
        List.filter_eq_self.mpr fun r hr => by simp [hnot r hr]
      have hmap :
          t.map (fun r => if r.row_id == iid then newRow else r) = t := by
        have hmapid :
            t.map (fun r => if r.row_id == iid then newRow else r) =
              t.map id :=
          List.map_congr_left fun r hr => by simp [hnot r hr]
        rw [hmapid, List.map_id]
      rw [List.filter_cons, hfx]
      simp only [Bool.false_eq_true, if_false]
      rw [List.map_cons, hfilt, hmap]
      have hhead : (if (x.row_id == iid) = true then newRow else x) =
          newRow := by simp [hxi]
      rw [hhead]
      exact List.perm_append_singleton newRow t
    · have hex' : ∃ r ∈ t, r.row_id = iid := by
        rcases hex with ⟨r, hr, hri⟩
        rcases List.mem_cons.mp hr with rfl | hrt
        · exact absurd hri hxi
        · exact ⟨r, hrt, hri⟩
      have htx : (x.row_id != iid) = true := by simp [hxi]
      rw [List.filter_cons, htx]
      simp only [if_true]
      rw [List.map_cons]
      have hhead : (if (x.row_id == iid) = true then newRow else x) = x := by
        simp [hxi]
      rw [hhead, List.cons_append]
      exact (ih hndt hex').cons x

/-! ### Claim theorems -/

/-- C1: a thread saved under owner A is returned by `load_thread` for A;
`load_thread` for any other owner B fails with `NotFound`, carrying exactly
the error that a wholly non-existent thread id produces (the result for B
coincides with the result on an empty store), so foreign existence is
indistinguishable from non-existence. -/
theorem loadThread_owner_isolation (db : DB) (t A B : String)
    (r : ThreadRow) (hnd : threadIdsNodup db) (hmem : r ∈ db.threads)
    (hid : r.row_id = t) (huser : r.user_id = A) (hAB : A ≠ B) :
    loadThread t A db = .ok r.data ∧
    loadThread t B db =
      .error (.notFound ("Thread " ++ t ++ " not found")) ∧
    loadThread t B db = loadThread t B ⟨[], [], []⟩ := by
  have huniq : ∀ x ∈ db.threads,
      (x.row_id == t && x.user_id == A) = true → x = r := by
    intro x hx hpx
    simp only [Bool.and_eq_true, beq_iff_eq] at hpx
    exact List.inj_on_of_nodup_map hnd hx hmem (by rw [hpx.1, hid])
  have hfindA : db.threads.find?
      (fun x => x.row_id == t && x.user_id == A) = some r :=
    find?_eq_some_of_unique hmem (by simp [hid, huser]) huniq
  have hfindB : db.threads.find?
      (fun x => x.row_id == t && x.user_id == B) = none := by
    rw [List.find?_eq_none]
    intro x hx hpx
    simp only [Bool.and_eq_true, beq_iff_eq] at hpx
    have hxr : x = r :=
      List.inj_on_of_nodup_map hnd hx hmem (by rw [hpx.1, hid])
    have hxB := hpx.2
    rw [hxr, huser] at hxB
    exact hAB hxB
  refine ⟨?_, ?_, ?_⟩
  · rw [loadThread, hfindA]
  · rw [loadThread, hfindB]
  · rw [loadThread, hfindB]
    rfl

theorem loadThread_owner_isolation_witness :
    loadThread "t1" "u1" ⟨[⟨"t1", "u1", 0, ⟨"t1", 0, "T"⟩⟩], [], []⟩ =
      .ok ⟨"t1", 0, "T"⟩ ∧
    loadThread "t1" "u2" ⟨[⟨"t1", "u1", 0, ⟨"t1", 0, "T"⟩⟩], [], []⟩ =
      .error (.notFound ("Thread " ++ "t1" ++ " not found")) ∧
    loadThread "t1" "u2" ⟨[⟨"t1", "u1", 0, ⟨"t1", 0, "T"⟩⟩], [], []⟩ =
      loadThread "t1" "u2" ⟨[], [], []⟩ :=
  loadThread_owner_isolation ⟨[⟨"t1", "u1", 0, ⟨"t1", 0, "T"⟩⟩], [], []⟩
    "t1" "u1" "u2" ⟨"t1", "u1", 0, ⟨"t1", 0, "T"⟩⟩ (by decide) (by decide)
    rfl rfl (by decide)

/-- C9: `save_thread` is an unconditional `INSERT OR REPLACE`: saving a
thread with an id already stored under another owner replaces the row,
re-assigning it to the new caller, after which the original owner gets
`NotFound` and the new owner reads the new thread. -/
theorem saveThread_cross_owner_overwrite (db : DB) (A B : String)
    (th1 th2 : Thread) (hid : th2.id = th1.id) (hAB : A ≠ B) :
    loadThread th1.id A (saveThread th2 B (saveThread th1 A db)) =
      .error (.notFound ("Thread " ++ th1.id ++ " not found")) ∧
    loadThread th1.id B (saveThread th2 B (saveThread th1 A db)) =
      .ok th2 := by
  have hthreads : (saveThread th2 B (saveThread th1 A db)).threads =
      (saveThread th1 A db).threads.filter (fun r => r.row_id != th2.id) ++
        [⟨th2.id, B, th2.created_at, th2⟩] := rfl
  have hpre : ∀ x ∈ (saveThread th1 A db).threads.filter
      (fun r => r.row_id != th2.id), (x.row_id == th1.id) = false := by
    intro x hx
    have hxne : x.row_id ≠ th2.id := by
      simpa using (List.mem_filter.mp hx).2
    rw [hid] at hxne
    simp [hxne]
  have hAfind : ((saveThread th1 A db).threads.filter
        (fun r => r.row_id != th2.id) ++
      ([⟨th2.id, B, th2.created_at, th2⟩] : List ThreadRow)).find?
        (fun x : ThreadRow => x.row_id == th1.id && x.user_id == A) =
      none := by
    rw [List.find?_eq_none]
    intro x hx
    rcases List.mem_append.mp hx with hx1 | hx2
    · simp [hpre x hx1]
    · rcases List.mem_cons.mp hx2 with rfl | hfalse
      · intro hpx
        simp only [Bool.and_eq_true, beq_iff_eq] at hpx
        exact hAB hpx.2.symm
      · cases hfalse
  have hBfind : ((saveThread th1 A db).threads.filter
        (fun r => r.row_id != th2.id) ++
      ([⟨th2.id, B, th2.created_at, th2⟩] : List ThreadRow)).find?
        (fun x : ThreadRow => x.row_id == th1.id && x.user_id == B) =
      some ⟨th2.id, B, th2.created_at, th2⟩ := by
    rw [find?_append_of_none (fun x hx => by simp [hpre x hx])]
    exact List.find?_cons_of_pos _ (by simp [hid])
  constructor
  · rw [loadThread, hthreads, hAfind]
  · rw [loadThread, hthreads, hBfind]

theorem saveThread_cross_owner_overwrite_witness :
    loadThread "t1" "u1"
        (saveThread ⟨"t1", 5, "M"⟩ "u2" (saveThread ⟨"t1", 3, "T"⟩ "u1"
          ⟨[], [], []⟩)) =
      .error (.notFound ("Thread " ++ "t1" ++ " not found")) ∧
    loadThread "t1" "u2"
        (saveThread ⟨"t1", 5, "M"⟩ "u2" (saveThread ⟨"t1", 3, "T"⟩ "u1"
          ⟨[], [], []⟩)) =
      .ok ⟨"t1", 5, "M"⟩ :=
  saveThread_cross_owner_overwrite ⟨[], [], []⟩ "u1" "u2"
    ⟨"t1", 3, "T"⟩ ⟨"t1", 5, "M"⟩ rfl (by decide)

/-- C10: `load_item` and `delete_thread_item` do not filter by owner: their
results are identical for any two caller identities, a stored item is
returned to any caller whatever its `user_id`, and `delete_thread_item`
removes it for any caller. -/
theorem loadItem_deleteItem_owner_independent (db : DB)
    (t iid A B u1 u2 : String) (r : ItemRow) (hnd : itemIdsNodup db)
    (hmem : r ∈ db.items) (hid : r.row_id = iid)
    (hthread : r.thread_id = t) (huser : r.user_id = A) :
    loadItem t iid u1 db = loadItem t iid u2 db ∧
    deleteThreadItem t iid u1 db = deleteThreadItem t iid u2 db ∧
    loadItem t iid B db = .ok r.data ∧
    r ∉ (deleteThreadItem t iid B db).items := by
  refine ⟨rfl, rfl, ?_, ?_⟩
  · have huniq : ∀ x ∈ db.items,
        (x.row_id == iid && x.thread_id == t) = true → x = r := by
      intro x hx hpx
      simp only [Bool.and_eq_true, beq_iff_eq] at hpx
      exact List.inj_on_of_nodup_map hnd hx hmem (by rw [hpx.1, hid])
    have hfind := find?_eq_some_of_unique hmem (by simp [hid, hthread])
      huniq
    rw [loadItem, hfind]
  · intro hcontra
    have hpass := (List.mem_filter.mp hcontra).2
    simp [hid, hthread] at hpass

theorem loadItem_deleteItem_owner_independent_witness :
    loadItem "t1" "i1" "u7"
        ⟨[], [⟨"i1", "t1", "u1", 1, ⟨"i1", 1, "m"⟩⟩], []⟩ =
      loadItem "t1" "i1" "u8"
        ⟨[], [⟨"i1", "t1", "u1", 1, ⟨"i1", 1, "m"⟩⟩], []⟩ ∧
    deleteThreadItem "t1" "i1" "u7"
        ⟨[], [⟨"i1", "t1", "u1", 1, ⟨"i1", 1, "m"⟩⟩], []⟩ =
      deleteThreadItem "t1" "i1" "u8"
        ⟨[], [⟨"i1", "t1", "u1", 1, ⟨"i1", 1, "m"⟩⟩], []⟩ ∧
    loadItem "t1" "i1" "u9"
        ⟨[], [⟨"i1", "t1", "u1", 1, ⟨"i1", 1, "m"⟩⟩], []⟩ =
      .ok ⟨"i1", 1, "m"⟩ ∧
    (⟨"i1", "t1", "u1", 1, ⟨"i1", 1, "m"⟩⟩ : ItemRow) ∉
      (deleteThreadItem "t1" "i1" "u9"
        ⟨[], [⟨"i1", "t1", "u1", 1, ⟨"i1", 1, "m"⟩⟩], []⟩).items :=
  loadItem_deleteItem_owner_independent
    ⟨[], [⟨"i1", "t1", "u1", 1, ⟨"i1", 1, "m"⟩⟩], []⟩
    "t1" "i1" "u1" "u9" "u7" "u8" ⟨"i1", "t1", "u1", 1, ⟨"i1", 1, "m"⟩⟩
    (by decide) (by decide) rfl rfl rfl

/-- C5 (amended): `load_attachment` does not filter by owner: it returns
any stored attachment with the given id to any caller, so an attachment
saved under owner A is also returned — not `NotFound` — for every other
owner B; the result is independent of the caller identity. -/
theorem loadAttachment_ignores_owner (db : DB) (aid A B u2 : String)
    (r : AttachmentRow)
    (hnd : (db.attachments.map AttachmentRow.row_id).Nodup)
    (hmem : r ∈ db.attachments) (hid : r.row_id = aid)
    (huser : r.user_id = A) (hAB : A ≠ B) :
    loadAttachment aid B db = .ok r.data ∧
    loadAttachment aid B db = loadAttachment aid u2 db := by
  refine ⟨?_, rfl⟩
  have huniq : ∀ x ∈ db.attachments, (x.row_id == aid) = true → x = r := by
    intro x hx hpx
    rw [beq_iff_eq] at hpx
    exact List.inj_on_of_nodup_map hnd hx hmem (by rw [hpx, hid])
  have hfind := find?_eq_some_of_unique hmem (by simp [hid]) huniq
  rw [loadAttachment, hfind]

theorem loadAttachment_ignores_owner_witness :
    loadAttachment "a1" "u2" ⟨[], [], [⟨"a1", "u1", ⟨"a1", "img"⟩⟩]⟩ =
      .ok ⟨"a1", "img"⟩ ∧
    loadAttachment "a1" "u2" ⟨[], [], [⟨"a1", "u1", ⟨"a1", "img"⟩⟩]⟩ =
      loadAttachment "a1" "u3" ⟨[], [], [⟨"a1", "u1", ⟨"a1", "img"⟩⟩]⟩ :=
  loadAttachment_ignores_owner ⟨[], [], [⟨"a1", "u1", ⟨"a1", "img"⟩⟩]⟩
    "a1" "u1" "u2" "u3" ⟨"a1", "u1", ⟨"a1", "img"⟩⟩ (by decide) (by decide)
    rfl rfl (by decide)

/-- C5, counterexample to the claim as stated: an attachment saved under
"u1" is loaded successfully by "u2" instead of failing `NotFound`. -/
theorem loadAttachment_cross_owner_cex :
    loadAttachment "a1" "u2" ⟨[], [], [⟨"a1", "u1", ⟨"a1", "img"⟩⟩]⟩ =
      .ok ⟨"a1", "img"⟩ := rfl

/-- C3 (amended): neither `add_thread_item` nor `save_item` checks that the
thread exists or belongs to the caller — the threads table is arbitrary
here, so the statement covers both a thread id that is absent entirely and
one that exists under a different owner: `add_thread_item` succeeds
(provided the item id is fresh) and `save_item` stores the row, and in
both cases the item is then loadable from the non-existent or foreign
thread. -/
theorem addItem_saveItem_no_thread_check (db : DB) (tid uid u2 : String)
    (item : Item)
    (hfree : ∀ r ∈ db.items, r.row_id ≠ item.id) :
    addThreadItem tid item uid db =
      .ok { db with items := db.items ++
        [⟨item.id, tid, uid, item.created_at, item⟩] } ∧
    loadItem tid item.id u2 { db with items := db.items ++
        [⟨item.id, tid, uid, item.created_at, item⟩] } = .ok item ∧
    loadItem tid item.id u2 (saveItem tid item uid db) = .ok item := by
  have hany : (db.items.any (fun r => r.row_id == item.id)) = false := by
    rw [List.any_eq_false]
    intro x hx
    simp [hfree x hx]
  have hpre : ∀ x ∈ db.items,
      ¬ ((fun r : ItemRow =>
        r.row_id == item.id && r.thread_id == tid) x = true) := by
    intro x hx h
    simp [hfree x hx] at h
  refine ⟨?_, ?_, ?_⟩
  · rw [addThreadItem, hany]
    rfl
  · show (match (db.items ++
        ([⟨item.id, tid, uid, item.created_at, item⟩] : List ItemRow)).find?
          (fun r : ItemRow => r.row_id == item.id && r.thread_id == tid) with
      | none => Except.error (Err.notFound ("Item " ++ item.id ++ " not found"))
      | some r => Except.ok r.data) = .ok item
    rw [find?_append_of_none hpre, List.find?_cons_of_pos _ (by simp)]
  · have hpre2 : ∀ x ∈ db.items.filter (fun r => r.row_id != item.id),
        ¬ ((fun r : ItemRow =>
          r.row_id == item.id && r.thread_id == tid) x = true) :=
      fun x hx => hpre x (List.mem_filter.mp hx).1
    show (match (db.items.filter (fun r => r.row_id != item.id) ++
        ([⟨item.id, tid, uid, item.created_at, item⟩] : List ItemRow)).find?
          (fun r : ItemRow => r.row_id == item.id && r.thread_id == tid) with
      | none => Except.error (Err.notFound ("Item " ++ item.id ++ " not found"))
      | some r => Except.ok r.data) = .ok item
    rw [find?_append_of_none hpre2, List.find?_cons_of_pos _ (by simp)]

theorem addItem_saveItem_no_thread_check_witness :
    addThreadItem "t1" ⟨"i1", 1, "hello"⟩ "u1"
        ⟨[⟨"t1", "u9", 0, ⟨"t1", 0, "T"⟩⟩], [], []⟩ =
      .ok ⟨[⟨"t1", "u9", 0, ⟨"t1", 0, "T"⟩⟩],
           [⟨"i1", "t1", "u1", 1, ⟨"i1", 1, "hello"⟩⟩], []⟩ ∧
    loadItem "t1" "i1" "u2"
        ⟨[⟨"t1", "u9", 0, ⟨"t1", 0, "T"⟩⟩],
         [⟨"i1", "t1", "u1", 1, ⟨"i1", 1, "hello"⟩⟩], []⟩ =
      .ok ⟨"i1", 1, "hello"⟩ ∧
    loadItem "t1" "i1" "u2"
        (saveItem "t1" ⟨"i1", 1, "hello"⟩ "u1"
          ⟨[⟨"t1", "u9", 0, ⟨"t1", 0, "T"⟩⟩], [], []⟩) =
      .ok ⟨"i1", 1, "hello"⟩ :=
  addItem_saveItem_no_thread_check
    ⟨[⟨"t1", "u9", 0, ⟨"t1", 0, "T"⟩⟩], [], []⟩ "t1" "u1" "u2"
    ⟨"i1", 1, "hello"⟩ (by decide)

/-- C3, counterexample to the claim as stated: on a store with no threads
at all, `add_thread_item` does not fail with `NotFound` — it inserts the
item into the non-existent thread and returns success. -/
theorem addItem_no_thread_check_cex :
    addThreadItem "t1" ⟨"i1", 1, "hello"⟩ "u1" ⟨[], [], []⟩ =
      .ok ⟨[], [⟨"i1", "t1", "u1", 1, ⟨"i1", 1, "hello"⟩⟩], []⟩ := rfl

/-- C4: after a successful `add_thread_item`, a second `add_thread_item`
with the same `(thread_id, id)` fails with the uniqueness-violation error
(`sqlite3.IntegrityError`, the `Conflict` failure: the insert is rejected,
nothing is overwritten), and the first call's stored item is still loaded
unchanged. -/
theorem addItem_duplicate_conflict (db db1 : DB)
    (tid uid uid2 u3 : String) (i1 i2 : Item) (hid : i2.id = i1.id)
    (h1 : addThreadItem tid i1 uid db = .ok db1) :
    addThreadItem tid i2 uid2 db1 = .error .integrityError ∧
    loadItem tid i1.id u3 db1 = .ok i1 := by
  rw [addThreadItem] at h1
  by_cases hany : (db.items.any (fun r => r.row_id == i1.id)) = true
  · rw [if_pos hany] at h1
    cases h1
  · rw [if_neg hany] at h1
    have hanyF : (db.items.any (fun r => r.row_id == i1.id)) = false :=
      Bool.eq_false_iff.mpr hany
    cases h1
    constructor
    · rw [addThreadItem]
      have hdup : ((db.items ++
          ([⟨i1.id, tid, uid, i1.created_at, i1⟩] : List ItemRow)).any
            (fun r => r.row_id == i2.id)) = true := by
        rw [List.any_eq_true]
        exact ⟨⟨i1.id, tid, uid, i1.created_at, i1⟩,
          List.mem_append_right _ (List.mem_cons_self _ _), by simp [hid]⟩
      rw [hdup]
      rfl
    · have hpre : ∀ x ∈ db.items,
          ¬ ((fun r : ItemRow =>
            r.row_id == i1.id && r.thread_id == tid) x = true) := by
        intro x hx h
        have hxF := List.any_eq_false.mp hanyF x hx
        simp only [Bool.and_eq_true] at h
        exact hxF h.1
      show (match (db.items ++
          ([⟨i1.id, tid, uid, i1.created_at, i1⟩] : List ItemRow)).find?
            (fun r : ItemRow => r.row_id == i1.id && r.thread_id == tid) with
        | none => Except.error (Err.notFound ("Item " ++ i1.id ++ " not found"))
        | some r => Except.ok r.data) = .ok i1
      rw [find?_append_of_none hpre, List.find?_cons_of_pos _ (by simp)]

theorem addItem_duplicate_conflict_witness :
    addThreadItem "t1" ⟨"i1", 2, "second"⟩ "u1"
        ⟨[⟨"t1", "u1", 0, ⟨"t1", 0, "T"⟩⟩],
         [⟨"i1", "t1", "u1", 1, ⟨"i1", 1, "first"⟩⟩], []⟩ =
      .error .integrityError ∧
    loadItem "t1" "i1" "u1"
        ⟨[⟨"t1", "u1", 0, ⟨"t1", 0, "T"⟩⟩],
         [⟨"i1", "t1", "u1", 1, ⟨"i1", 1, "first"⟩⟩], []⟩ =
      .ok ⟨"i1", 1, "first"⟩ :=
  addItem_duplicate_conflict ⟨[⟨"t1", "u1", 0, ⟨"t1", 0, "T"⟩⟩], [], []⟩
    ⟨[⟨"t1", "u1", 0, ⟨"t1", 0, "T"⟩⟩],
     [⟨"i1", "t1", "u1", 1, ⟨"i1", 1, "first"⟩⟩], []⟩
    "t1" "u1" "u1" "u1" ⟨"i1", 1, "first"⟩ ⟨"i1", 2, "second"⟩ rfl rfl

/-- C2: with the stored item set fixed, any positive `limit` and either
order, walking `load_thread_items` from `cursor = None` and following the
returned cursor while `has_more` holds concatenates to exactly the full
ordered item set of the thread — no gaps, no duplicates (`fuel` bounds the
number of page requests; any bound with `fuel * limit` covering the set
exhausts pagination). -/
theorem listItems_pages_roundtrip (db : DB)
    (thread_id order user_id : String) (limit fuel : Nat)
    (hlim : 0 < limit) (hnd : itemIdsNodup db) (hlink : itemRowsLinked db)
    (hthread : ∃ r ∈ db.threads,
      r.row_id = thread_id ∧ r.user_id = user_id)
    (hfuel : (orderedItems thread_id order db).length ≤ fuel * limit) :
    collectItemPages thread_id limit order user_id db fuel none =
      .ok (orderedItems thread_id order db) := by
  rw [collectItemPages_eq thread_id limit order user_id db hthread fuel
    none]
  have h0 : startIdx Item.id (none : Option String)
      (orderedItems thread_id order db) = 0 := rfl
  have hcp := collectPages_eq_drop
    (orderedItems_ids_nodup db thread_id order hnd hlink) hlim fuel none
    (by rw [h0]; omega)
  rw [hcp, h0, List.drop_zero]

theorem listItems_pages_roundtrip_witness :
    collectItemPages "t1" 2 "desc" "u1"
      ⟨[⟨"t1", "u1", 0, ⟨"t1", 0, "T"⟩⟩],
       [⟨"i1", "t1", "u1", 1, ⟨"i1", 1, "a"⟩⟩,
        ⟨"i2", "t1", "u1", 2, ⟨"i2", 2, "b"⟩⟩,
        ⟨"i3", "t1", "u1", 3, ⟨"i3", 3, "c"⟩⟩], []⟩ 2 none =
      .ok (orderedItems "t1" "desc"
        ⟨[⟨"t1", "u1", 0, ⟨"t1", 0, "T"⟩⟩],
         [⟨"i1", "t1", "u1", 1, ⟨"i1", 1, "a"⟩⟩,
          ⟨"i2", "t1", "u1", 2, ⟨"i2", 2, "b"⟩⟩,
          ⟨"i3", "t1", "u1", 3, ⟨"i3", 3, "c"⟩⟩], []⟩) :=
  listItems_pages_roundtrip
    ⟨[⟨"t1", "u1", 0, ⟨"t1", 0, "T"⟩⟩],
     [⟨"i1", "t1", "u1", 1, ⟨"i1", 1, "a"⟩⟩,
      ⟨"i2", "t1", "u1", 2, ⟨"i2", 2, "b"⟩⟩,
      ⟨"i3", "t1", "u1", 3, ⟨"i3", 3, "c"⟩⟩], []⟩
    "t1" "desc" "u1" 2 2 (by decide) (by decide) (by decide) (by decide)
    (by decide)

/-- C6 (amended): `load_threads` ignores its `order` argument entirely: the
returned page is identical for any two values of `order`, and its contents
are always sorted by `created_at` descending (stated for stores whose
`created_at` column mirrors the stored thread's `created_at`, as every
`save_thread` write guarantees). -/
theorem loadThreads_always_desc (db : DB) (user_id o1 o2 : String)
    (limit : Nat) (after : Option String)
    (hcol : ∀ r ∈ db.threads, r.data.created_at = r.created_at) :
    loadThreads limit after o1 user_id db =
      loadThreads limit after o2 user_id db ∧
    List.Pairwise (fun a b : Thread => b.created_at ≤ a.created_at)
      (loadThreads limit after o1 user_id db).data := by
  refine ⟨rfl, ?_⟩
  have hsorted : List.Pairwise
      (fun a b => geKey ThreadRow.created_at a b = true)
      (sortBy (geKey ThreadRow.created_at)
        (db.threads.filter (fun r => r.user_id == user_id))) :=
    pairwise_sortBy (geKey_total _) (geKey_trans _) _
  have hmemrows : ∀ r ∈ sortBy (geKey ThreadRow.created_at)
      (db.threads.filter (fun r => r.user_id == user_id)),
      r ∈ db.threads := by
    intro r hr
    exact (List.mem_filter.mp ((sortBy_perm _ _).subset hr)).1
  have hrows : List.Pairwise
      (fun a b : ThreadRow => b.data.created_at ≤ a.data.created_at)
      (sortBy (geKey ThreadRow.created_at)
        (db.threads.filter (fun r => r.user_id == user_id))) := by
    refine List.Pairwise.imp_of_mem ?_ hsorted
    intro a b ha hb hR
    rw [hcol a (hmemrows a ha), hcol b (hmemrows b hb)]
    simpa [geKey] using hR
  have hmapped : List.Pairwise
      (fun a b : Thread => b.created_at ≤ a.created_at)
      ((sortBy (geKey ThreadRow.created_at)
        (db.threads.filter (fun r => r.user_id == user_id))).map
          ThreadRow.data) :=
    List.pairwise_map.mpr hrows
  exact List.Pairwise.sublist
    ((List.take_sublist _ _).trans (List.drop_sublist _ _)) hmapped

theorem loadThreads_always_desc_witness :
    loadThreads 10 none "asc" "u1"
        ⟨[⟨"t1", "u1", 1, ⟨"t1", 1, "A"⟩⟩,
          ⟨"t2", "u1", 2, ⟨"t2", 2, "B"⟩⟩], [], []⟩ =
      loadThreads 10 none "desc" "u1"
        ⟨[⟨"t1", "u1", 1, ⟨"t1", 1, "A"⟩⟩,
          ⟨"t2", "u1", 2, ⟨"t2", 2, "B"⟩⟩], [], []⟩ ∧
    List.Pairwise (fun a b : Thread => b.created_at ≤ a.created_at)
      (loadThreads 10 none "asc" "u1"
        ⟨[⟨"t1", "u1", 1, ⟨"t1", 1, "A"⟩⟩,
          ⟨"t2", "u1", 2, ⟨"t2", 2, "B"⟩⟩], [], []⟩).data :=
  loadThreads_always_desc
    ⟨[⟨"t1", "u1", 1, ⟨"t1", 1, "A"⟩⟩,
      ⟨"t2", "u1", 2, ⟨"t2", 2, "B"⟩⟩], [], []⟩
    "u1" "asc" "desc" 10 none (by decide)

/-- C6, counterexample to the claim as stated: with two threads created at
times 1 and 2, requesting ascending order still returns them descending —
the `order` argument is never read by `load_threads`. -/
theorem loadThreads_ignores_asc_cex :
    (loadThreads 10 none "asc" "u1"
      ⟨[⟨"t1", "u1", 1, ⟨"t1", 1, "A"⟩⟩,
        ⟨"t2", "u1", 2, ⟨"t2", 2, "B"⟩⟩], [], []⟩).data =
      [⟨"t2", 2, "B"⟩, ⟨"t1", 1, "A"⟩] := by decide

/-- C7 (amended): `delete_thread` is idempotent and never errors, and after
the owner's delete no items of the thread owned by that owner remain; a
delete by a non-owner B leaves the threads table untouched and preserves
every item whose `user_id` differs from B (in particular all items written
by the true owner, whose `load_thread` still succeeds) — but the item
delete is scoped to `(thread_id, caller)`, not to the thread's owner. -/
theorem deleteThread_idempotent_scoped (db : DB) (t A B : String)
    (r : ThreadRow) (hnd : threadIdsNodup db) (hmem : r ∈ db.threads)
    (hid : r.row_id = t) (huser : r.user_id = A) (hBA : B ≠ A) :
    deleteThread t A (deleteThread t A db) = deleteThread t A db ∧
    (∀ ri ∈ (deleteThread t A db).items,
      ¬(ri.thread_id = t ∧ ri.user_id = A)) ∧
    (deleteThread t B db).threads = db.threads ∧
    (∀ ri ∈ db.items, ri.user_id ≠ B →
      ri ∈ (deleteThread t B db).items) ∧
    loadThread t A (deleteThread t B db) = .ok r.data := by
  have hABeq : (A == B) = false := by
    simp only [beq_eq_false_iff_ne]
    exact Ne.symm hBA
  refine ⟨?_, ?_, ?_, ?_, ?_⟩
  · have hT : (db.threads.filter
          (fun x => !(x.row_id == t && x.user_id == A))).filter
        (fun x => !(x.row_id == t && x.user_id == A)) =
        db.threads.filter (fun x => !(x.row_id == t && x.user_id == A)) := by
      rw [List.filter_filter]
      exact List.filter_congr fun x _ => Bool.and_self _
    have hI : (db.items.filter
          (fun x => !(x.thread_id == t && x.user_id == A))).filter
        (fun x => !(x.thread_id == t && x.user_id == A)) =
        db.items.filter (fun x => !(x.thread_id == t && x.user_id == A)) := by
      rw [List.filter_filter]
      exact List.filter_congr fun x _ => Bool.and_self _
    show DB.mk
      ((db.threads.filter
        (fun x => !(x.row_id == t && x.user_id == A))).filter
          (fun x => !(x.row_id == t && x.user_id == A)))
      ((db.items.filter
        (fun x => !(x.thread_id == t && x.user_id == A))).filter
          (fun x => !(x.thread_id == t && x.user_id == A)))
      db.attachments = _
    rw [hT, hI]
    rfl
  · intro ri hri hcontra
    have hpass := (List.mem_filter.mp hri).2
    simp [hcontra.1, hcontra.2] at hpass
  · apply List.filter_eq_self.mpr
    intro x hx
    by_cases hxt : x.row_id = t
    · have hxr : x = r :=
        List.inj_on_of_nodup_map hnd hx hmem (by rw [hxt, hid])
      rw [hxr, huser]
      simp [hABeq]
    · simp [hxt]
  · intro ri hri hrB
    refine List.mem_filter.mpr ⟨hri, ?_⟩
    simp [hrB]
  · have hpredr : (!(r.row_id == t && r.user_id == B)) = true := by
      rw [huser]
      simp [hABeq]
    have hmem' : r ∈ db.threads.filter
        (fun x => !(x.row_id == t && x.user_id == B)) :=
      List.mem_filter.mpr ⟨hmem, hpredr⟩
    have huniq : ∀ x ∈ db.threads.filter
        (fun x => !(x.row_id == t && x.user_id == B)),
        (x.row_id == t && x.user_id == A) = true → x = r := by
      intro x hx hpx
      simp only [Bool.and_eq_true, beq_iff_eq] at hpx
      exact List.inj_on_of_nodup_map hnd (List.mem_filter.mp hx).1 hmem
        (by rw [hpx.1, hid])
    have hfind := find?_eq_some_of_unique hmem' (by simp [hid, huser])
      huniq
    rw [loadThread]
    show (match (db.threads.filter
        (fun x => !(x.row_id == t && x.user_id == B))).find?
          (fun x : ThreadRow => x.row_id == t && x.user_id == A) with
      | none => Except.error (Err.notFound ("Thread " ++ t ++ " not found"))
      | some x => Except.ok x.data) = .ok r.data
    rw [hfind]

theorem deleteThread_idempotent_scoped_witness :
    deleteThread "t1" "u1" (deleteThread "t1" "u1"
        ⟨[⟨"t1", "u1", 0, ⟨"t1", 0, "T"⟩⟩],
         [⟨"i1", "t1", "u1", 1, ⟨"i1", 1, "a"⟩⟩,
          ⟨"i2", "t1", "u3", 2, ⟨"i2", 2, "b"⟩⟩], []⟩) =
      deleteThread "t1" "u1"
        ⟨[⟨"t1", "u1", 0, ⟨"t1", 0, "T"⟩⟩],
         [⟨"i1", "t1", "u1", 1, ⟨"i1", 1, "a"⟩⟩,
          ⟨"i2", "t1", "u3", 2, ⟨"i2", 2, "b"⟩⟩], []⟩ ∧
    (∀ ri ∈ (deleteThread "t1" "u1"
        ⟨[⟨"t1", "u1", 0, ⟨"t1", 0, "T"⟩⟩],
         [⟨"i1", "t1", "u1", 1, ⟨"i1", 1, "a"⟩⟩,
          ⟨"i2", "t1", "u3", 2, ⟨"i2", 2, "b"⟩⟩], []⟩).items,
      ¬(ri.thread_id = "t1" ∧ ri.user_id = "u1")) ∧
    (deleteThread "t1" "u2"
        ⟨[⟨"t1", "u1", 0, ⟨"t1", 0, "T"⟩⟩],
         [⟨"i1", "t1", "u1", 1, ⟨"i1", 1, "a"⟩⟩,
          ⟨"i2", "t1", "u3", 2, ⟨"i2", 2, "b"⟩⟩], []⟩).threads =
      (⟨[⟨"t1", "u1", 0, ⟨"t1", 0, "T"⟩⟩],
        [⟨"i1", "t1", "u1", 1, ⟨"i1", 1, "a"⟩⟩,
         ⟨"i2", "t1", "u3", 2, ⟨"i2", 2, "b"⟩⟩], []⟩ : DB).threads ∧
    (∀ ri ∈ (⟨[⟨"t1", "u1", 0, ⟨"t1", 0, "T"⟩⟩],
        [⟨"i1", "t1", "u1", 1, ⟨"i1", 1, "a"⟩⟩,
         ⟨"i2", "t1", "u3", 2, ⟨"i2", 2, "b"⟩⟩], []⟩ : DB).items,
      ri.user_id ≠ "u2" →
      ri ∈ (deleteThread "t1" "u2"
        ⟨[⟨"t1", "u1", 0, ⟨"t1", 0, "T"⟩⟩],
         [⟨"i1", "t1", "u1", 1, ⟨"i1", 1, "a"⟩⟩,
          ⟨"i2", "t1", "u3", 2, ⟨"i2", 2, "b"⟩⟩], []⟩).items) ∧
    loadThread "t1" "u1" (deleteThread "t1" "u2"
        ⟨[⟨"t1", "u1", 0, ⟨"t1", 0, "T"⟩⟩],
         [⟨"i1", "t1", "u1", 1, ⟨"i1", 1, "a"⟩⟩,
          ⟨"i2", "t1", "u3", 2, ⟨"i2", 2, "b"⟩⟩], []⟩) =
      .ok ⟨"t1", 0, "T"⟩ :=
  deleteThread_idempotent_scoped
    ⟨[⟨"t1", "u1", 0, ⟨"t1", 0, "T"⟩⟩],
     [⟨"i1", "t1", "u1", 1, ⟨"i1", 1, "a"⟩⟩,
      ⟨"i2", "t1", "u3", 2, ⟨"i2", 2, "b"⟩⟩], []⟩
    "t1" "u1" "u2" ⟨"t1", "u1", 0, ⟨"t1", 0, "T"⟩⟩ (by decide) (by decide)
    rfl rfl (by decide)

/-- C7, counterexample to the claim as stated: a non-owner's
`delete_thread` is not a pure no-op on the thread's items — an item of
thread "t1" that was inserted with the caller's `user_id` ("u2") is
deleted, because the item `DELETE` is scoped to the caller, not to the
thread's owner. -/
theorem deleteThread_foreign_deletes_items_cex :
    (deleteThread "t1" "u2"
      ⟨[⟨"t1", "u1", 0, ⟨"t1", 0, "T"⟩⟩],
       [⟨"i1", "t1", "u2", 1, ⟨"i1", 1, "m"⟩⟩], []⟩).threads =
      [⟨"t1", "u1", 0, ⟨"t1", 0, "T"⟩⟩] ∧
    (deleteThread "t1" "u2"
      ⟨[⟨"t1", "u1", 0, ⟨"t1", 0, "T"⟩⟩],
       [⟨"i1", "t1", "u2", 1, ⟨"i1", 1, "m"⟩⟩], []⟩).items = [] := by
  constructor
  · decide
  · decide

/-- C8 (amended): `save_item` rewrites the whole row — `thread_id` and
`user_id` from the call, `created_at` from the supplied item — so the
ordering position is preserved only when the caller passes the same
`created_at`: in that case (and with distinct timestamps in the thread)
the ordered item-row set after the upsert is exactly the old ordered set
with that one row's payload replaced in place; every position is
unchanged. -/
theorem saveItem_same_created_at_preserves_order (db : DB)
    (tid uid : String) (item : Item) (r0 : ItemRow)
    (hnd : itemIdsNodup db)
    (hties : ((db.items.filter (fun r => r.thread_id == tid)).map
      ItemRow.created_at).Nodup)
    (hmem : r0 ∈ db.items) (hid : r0.row_id = item.id)
    (hthread : r0.thread_id = tid)
    (hcreated : r0.created_at = item.created_at) :
    orderedItemRows tid (saveItem tid item uid db) =
      (orderedItemRows tid db).map
        (fun r => if r.row_id == item.id
          then ⟨item.id, tid, uid, item.created_at, item⟩ else r) := by
  have hstep1 : (saveItem tid item uid db).items.filter
      (fun r => r.thread_id == tid) =
      (db.items.filter (fun r => r.thread_id == tid)).filter
        (fun r => r.row_id != item.id) ++
      ([⟨item.id, tid, uid, item.created_at, item⟩] : List ItemRow) := by
    show (db.items.filter (fun r => r.row_id != item.id) ++
        ([⟨item.id, tid, uid, item.created_at, item⟩] : List ItemRow)).filter
          (fun r => r.thread_id == tid) = _
    rw [List.filter_append]
    congr 1
    · rw [List.filter_filter, List.filter_filter]
      exact List.filter_congr fun x _ => Bool.and_comm _ _
    · simp
  have hFnodup : ((db.items.filter (fun r => r.thread_id == tid)).map
      ItemRow.row_id).Nodup :=
    List.Nodup.sublist (List.Sublist.map _ (List.filter_sublist _)) hnd
  have hmemF : r0 ∈ db.items.filter (fun r => r.thread_id == tid) :=
    List.mem_filter.mpr ⟨hmem, by simp [hthread]⟩
  have hkeep : ∀ r ∈ sortBy (leKey ItemRow.created_at)
      (db.items.filter (fun r => r.thread_id == tid)),
      ((fun r : ItemRow => if r.row_id == item.id
        then (⟨item.id, tid, uid, item.created_at, item⟩ : ItemRow)
        else r) r).created_at = r.created_at := by
    intro r hr
    show (if (r.row_id == item.id) = true
      then (⟨item.id, tid, uid, item.created_at, item⟩ : ItemRow)
      else r).created_at = r.created_at
    by_cases hri : (r.row_id == item.id) = true
    · rw [if_pos hri]
      have hrmem : r ∈ db.items :=
        (List.mem_filter.mp ((sortBy_perm _ _).subset hr)).1
      have hr0 : r = r0 := by
        rw [beq_iff_eq] at hri
        exact List.inj_on_of_nodup_map hnd hrmem hmem (by rw [hri, hid])
      show item.created_at = r.created_at
      rw [hr0]
      exact hcreated.symm
    · rw [if_neg hri]
  simp only [orderedItemRows]
  rw [hstep1]
  have hABperm : (sortBy (leKey ItemRow.created_at)
      ((db.items.filter (fun r => r.thread_id == tid)).filter
        (fun r => r.row_id != item.id) ++
      ([⟨item.id, tid, uid, item.created_at, item⟩] : List ItemRow))).Perm
      ((sortBy (leKey ItemRow.created_at)
        (db.items.filter (fun r => r.thread_id == tid))).map
          (fun r => if r.row_id == item.id
            then ⟨item.id, tid, uid, item.created_at, item⟩ else r)) := by
    refine (sortBy_perm _ _).trans ?_
    refine (filter_append_perm_map_subst item.id
      ⟨item.id, tid, uid, item.created_at, item⟩ hFnodup
      ⟨r0, hmemF, hid⟩).trans ?_
    exact (List.Perm.map _ (sortBy_perm _ _)).symm
  have hsortedA : List.Pairwise
      (fun a b => leKey ItemRow.created_at a b = true)
      (sortBy (leKey ItemRow.created_at)
        ((db.items.filter (fun r => r.thread_id == tid)).filter
          (fun r => r.row_id != item.id) ++
        ([⟨item.id, tid, uid, item.created_at, item⟩] : List ItemRow))) :=
    pairwise_sortBy (leKey_total _) (leKey_trans _) _
  have hsortedS : List.Pairwise
      (fun a b => leKey ItemRow.created_at a b = true)
      (sortBy (leKey ItemRow.created_at)
        (db.items.filter (fun r => r.thread_id == tid))) :=
    pairwise_sortBy (leKey_total _) (leKey_trans _) _
  have hsortedB : List.Pairwise
      (fun a b => leKey ItemRow.created_at a b = true)
      ((sortBy (leKey ItemRow.created_at)
        (db.items.filter (fun r => r.thread_id == tid))).map
          (fun r => if r.row_id == item.id
            then ⟨item.id, tid, uid, item.created_at, item⟩ else r)) := by
    rw [List.pairwise_map]
    refine List.Pairwise.imp_of_mem ?_ hsortedS
    intro a b ha hb hR
    have h1 := hkeep a ha
    have h2 := hkeep b hb
    simp only [leKey, decide_eq_true_eq] at hR ⊢
    rw [h1, h2]
    exact hR
  have hkeysB : ((((sortBy (leKey ItemRow.created_at)
      (db.items.filter (fun r => r.thread_id == tid))).map
        (fun r => if r.row_id == item.id
          then ⟨item.id, tid, uid, item.created_at, item⟩ else r))).map
            ItemRow.created_at).Nodup := by
    rw [List.map_map]
    have hmapeq : (sortBy (leKey ItemRow.created_at)
        (db.items.filter (fun r => r.thread_id == tid))).map
          (ItemRow.created_at ∘ (fun r => if r.row_id == item.id
            then ⟨item.id, tid, uid, item.created_at, item⟩ else r)) =
        (sortBy (leKey ItemRow.created_at)
          (db.items.filter (fun r => r.thread_id == tid))).map
            ItemRow.created_at :=
      List.map_congr_left fun r hr => hkeep r hr
    rw [hmapeq]
    exact ((sortBy_perm (leKey ItemRow.created_at)
      (db.items.filter (fun r => r.thread_id == tid))).map
        ItemRow.created_at).nodup_iff.mpr hties
  have hkeysA : ((sortBy (leKey ItemRow.created_at)
      ((db.items.filter (fun r => r.thread_id == tid)).filter
        (fun r => r.row_id != item.id) ++
      ([⟨item.id, tid, uid, item.created_at, item⟩] : List ItemRow))).map
        ItemRow.created_at).Nodup :=
    (hABperm.map ItemRow.created_at).nodup_iff.mpr hkeysB
  exact sorted_perm_eq_of_nodup_keys ItemRow.created_at hABperm hsortedA
    hsortedB hkeysA

theorem saveItem_same_created_at_preserves_order_witness :
    orderedItemRows "t1" (saveItem "t1" ⟨"i1", 1, "a2"⟩ "u1"
        ⟨[], [⟨"i1", "t1", "u1", 1, ⟨"i1", 1, "a"⟩⟩,
              ⟨"i2", "t1", "u1", 3, ⟨"i2", 3, "b"⟩⟩], []⟩) =
      (orderedItemRows "t1"
        ⟨[], [⟨"i1", "t1", "u1", 1, ⟨"i1", 1, "a"⟩⟩,
              ⟨"i2", "t1", "u1", 3, ⟨"i2", 3, "b"⟩⟩], []⟩).map
        (fun r => if r.row_id == "i1"
          then ⟨"i1", "t1", "u1", 1, ⟨"i1", 1, "a2"⟩⟩ else r) :=
  saveItem_same_created_at_preserves_order
    ⟨[], [⟨"i1", "t1", "u1", 1, ⟨"i1", 1, "a"⟩⟩,
          ⟨"i2", "t1", "u1", 3, ⟨"i2", 3, "b"⟩⟩], []⟩
    "t1" "u1" ⟨"i1", 1, "a2"⟩ ⟨"i1", "t1", "u1", 1, ⟨"i1", 1, "a"⟩⟩
    (by decide) (by decide) (by decide) rfl rfl rfl

/-- C8, counterexample to the claim as stated: `save_item` with the same
item id but a new `created_at` (5 instead of 1) rewrites the row's
`created_at` and moves the item from position 0 to position 1 of the
ordered set pagination is based on. -/
theorem saveItem_created_at_moves_position_cex :
    orderedItemRows "t1"
        ⟨[], [⟨"i1", "t1", "u1", 1, ⟨"i1", 1, "a"⟩⟩,
              ⟨"i2", "t1", "u1", 3, ⟨"i2", 3, "b"⟩⟩], []⟩ =
      [⟨"i1", "t1", "u1", 1, ⟨"i1", 1, "a"⟩⟩,
       ⟨"i2", "t1", "u1", 3, ⟨"i2", 3, "b"⟩⟩] ∧
    orderedItemRows "t1" (saveItem "t1" ⟨"i1", 5, "a2"⟩ "u1"
        ⟨[], [⟨"i1", "t1", "u1", 1, ⟨"i1", 1, "a"⟩⟩,
              ⟨"i2", "t1", "u1", 3, ⟨"i2", 3, "b"⟩⟩], []⟩) =
      [⟨"i2", "t1", "u1", 3, ⟨"i2", 3, "b"⟩⟩,
       ⟨"i1", "t1", "u1", 5, ⟨"i1", 5, "a2"⟩⟩] := by
  constructor
  · decide
  · decide

end ChatkitStore
